import Mathlib

/-!
# MatrixMul.cpp : a fixed-size integer matrix product

A shallow embedding of `src/temp/MatrixMul.cpp`.  The program consists of one
function, `main`, holding three local arrays `m1` (3×4), `m2` (4×2) and `m3`
(3×2, zero-initialised), a triple loop that accumulates the product of `m1`
and `m2` into `m3`, and a double loop that prints `m3`.

Modelling decisions.

* A C array `int a[r][c]` is a list of `r` rows, each a list of `c` integers.
  Reads and writes go through `Mat.load` and `Mat.store`, which return `none`
  when an index is out of range, and the whole run is in the `Option` monad.
* `int` is a 32-bit two's-complement integer.  A value is an `Int`, and every
  arithmetic result is reduced into the signed 32-bit range by `wrap32`
  (the wraparound behaviour of the usual targets; the C++ standard leaves
  signed overflow undefined).
* A counted loop `for (int x = 0; x < bound; x++) body` is `forLoop bound body`.
* Standard output is the string `State.out`; `cout << v` for an `int` appends
  the decimal rendering `dec v`.
-/

namespace MatrixMul

/-! ## Machine integers -/

/-- Smallest value of a 32-bit signed `int`. -/
def INT_MIN : Int := -2147483648

/-- Largest value of a 32-bit signed `int`. -/
def INT_MAX : Int := 2147483647

/-- The value fits a 32-bit signed `int`. -/
def inRange (x : Int) : Prop := INT_MIN ≤ x ∧ x ≤ INT_MAX

instance (x : Int) : Decidable (inRange x) := by
  unfold inRange; exact inferInstance

/-- Reduction of a mathematical integer into the signed 32-bit range
(two's-complement wraparound). -/
def wrap32 (x : Int) : Int := (x + 2147483648) % 4294967296 - 2147483648

/-! ## Arrays -/

/-- A two-dimensional array of `int`: a list of rows. -/
abbrev Mat := List (List Int)

/-- Every row of `M` has `cols` entries and there are `rows` rows. -/
def Mat.hasShape (M : Mat) (rows cols : Nat) : Prop :=
  M.length = rows ∧ ∀ r ∈ M, r.length = cols

instance (M : Mat) (rows cols : Nat) : Decidable (M.hasShape rows cols) := by
  unfold Mat.hasShape; exact inferInstance

/-- All entries of `M` are 32-bit `int` values. -/
def Mat.inInt32 (M : Mat) : Prop := ∀ r ∈ M, ∀ x ∈ r, inRange x

instance (M : Mat) : Decidable M.inInt32 := by
  unfold Mat.inInt32; exact inferInstance

/-- Read `M[i][j]`; `none` when `i` or `j` is out of range. -/
def Mat.load (M : Mat) (i j : Nat) : Option Int :=
  match M[i]? with
  | none => none
  | some r => r[j]?

/-- Write `M[i][j] = v`; `none` when `i` or `j` is out of range. -/
def Mat.store (M : Mat) (i j : Nat) (v : Int) : Option Mat :=
  match M[i]? with
  | none => none
  | some r => if j < r.length then some (M.set i (r.set j v)) else none

/-- The value of `M[i][j]`, taken as `0` outside the array (used in statements only). -/
def Mat.cell (M : Mat) (i j : Nat) : Int := (M.load i j).getD 0

/-! ## Program state -/

/-- The local variables of `main` and the text written to standard output. -/
structure State where
  m1 : Mat
  m2 : Mat
  m3 : Mat
  out : String
deriving DecidableEq

/-- Decimal rendering of an `int` by `cout <<`: an optional minus sign followed by
the digits of the absolute value. -/
def dec (v : Int) : String :=
  if v < 0 then "-" ++ Nat.repr v.natAbs else Nat.repr v.natAbs

/-! ## Loops -/

/-- Iterations `i, i+1, ...` of a counted loop, `count` of them. -/
def forFrom (body : Nat → State → Option State) : Nat → Nat → State → Option State
  | 0, _, s => some s
  | count + 1, i, s =>
    match body i s with
    | none => none
    | some s1 => forFrom body count (i + 1) s1

/-- The loop `for (int x = 0; x < bound; x++) body`. -/
def forLoop (bound : Nat) (body : Nat → State → Option State) (s : State) : Option State :=
  forFrom body bound 0 s

/-- The statement `m3[i][j] += m1[i][k] * m2[k][j];`. -/
def accumulate (i j k : Nat) (s : State) : Option State :=
  match s.m1.load i k, s.m2.load k j, s.m3.load i j with
  | some a, some b, some c =>
    match s.m3.store i j (wrap32 (c + wrap32 (a * b))) with
    | some m3 => some { s with m3 := m3 }
    | none => none
  | _, _, _ => none

/-- The multiply loop of `main` with its bounds as parameters: `i < m`, `j < p`, `k < n`
(in `main`, `m = 3`, `n = 4`, `p = 2`). -/
def multiply (m n p : Nat) (s : State) : Option State :=
  forLoop m (fun i => forLoop p (fun j => forLoop n (fun k => accumulate i j k))) s

/-- The statement `cout << m3[i][j] << " ";`. -/
def printCell (i j : Nat) (s : State) : Option State :=
  match s.m3.load i j with
  | some v => some { s with out := s.out ++ dec v ++ " " }
  | none => none

/-- One iteration of the outer print loop: the inner loop over `j`, then `cout << "\n";`. -/
def printRow (p : Nat) (i : Nat) (s : State) : Option State :=
  match forLoop p (fun j => printCell i j) s with
  | some s1 => some { s1 with out := s1.out ++ "\n" }
  | none => none

/-- The print loop of `main` with its bounds as parameters. -/
def print (m p : Nat) (s : State) : Option State :=
  forLoop m (printRow p) s

/-- The state of `main` after its three array declarations, nothing written yet. -/
def init : State :=
  { m1 := [[1, 2, 3, 4], [2, 3, 4, 1], [3, 4, 1, 2]]
    m2 := [[1, 2], [3, 4], [1, 4], [2, 3]]
    m3 := [[0, 0], [0, 0], [0, 0]]
    out := "" }

/-- The function `main`: multiply, then print. -/
def main : Option State :=
  match multiply 3 4 2 init with
  | some s => print 3 2 s
  | none => none

/-! ## Other nestings of the same three loops

The accumulation statement under each of the five other orders of the loops
over `i < m`, `j < p`, `k < n`, and under an arbitrary sequence of index triples. -/

/-- Nesting `i`, `k`, `j`. -/
def multiplyIKJ (m n p : Nat) (s : State) : Option State :=
  forLoop m (fun i => forLoop n (fun k => forLoop p (fun j => accumulate i j k))) s

/-- Nesting `j`, `i`, `k`. -/
def multiplyJIK (m n p : Nat) (s : State) : Option State :=
  forLoop p (fun j => forLoop m (fun i => forLoop n (fun k => accumulate i j k))) s

/-- Nesting `j`, `k`, `i`. -/
def multiplyJKI (m n p : Nat) (s : State) : Option State :=
  forLoop p (fun j => forLoop n (fun k => forLoop m (fun i => accumulate i j k))) s

/-- Nesting `k`, `i`, `j`. -/
def multiplyKIJ (m n p : Nat) (s : State) : Option State :=
  forLoop n (fun k => forLoop m (fun i => forLoop p (fun j => accumulate i j k))) s

/-- Nesting `k`, `j`, `i`. -/
def multiplyKJI (m n p : Nat) (s : State) : Option State :=
  forLoop n (fun k => forLoop p (fun j => forLoop m (fun i => accumulate i j k))) s

/-- A list of steps executed one after the other, stopping at the first failure. -/
def runList {α : Type} (step : α → State → Option State) : List α → State → Option State
  | [], s => some s
  | a :: l, s =>
    match step a s with
    | none => none
    | some s1 => runList step l s1

/-- The accumulation statement at the index triple `(i, j, k)`. -/
def accumulateAt (t : Nat × Nat × Nat) (s : State) : Option State :=
  accumulate t.1 t.2.1 t.2.2 s

/-- The index triples `(i, j, k)` in the order in which `multiply m n p` visits them. -/
def ijkTriples (m n p : Nat) : List (Nat × Nat × Nat) :=
  (List.range m).flatMap fun i => (List.range p).flatMap fun j =>
    (List.range n).map fun k => (i, j, k)

/-! ## Specification-side definitions -/

/-- The `rows × cols` array of zeros. -/
def zeros (rows cols : Nat) : Mat := List.replicate rows (List.replicate cols 0)

/-- The mathematical dot product `Σ_{k < n} A[i][k] * B[k][j]`, over unbounded integers. -/
def dot (A B : Mat) (n i j : Nat) : Int :=
  ((List.range n).map fun k => A.cell i k * B.cell k j).sum

/-- The mathematical product of an `m × n` and an `n × p` matrix. -/
def matProduct (A B : Mat) (m n p : Nat) : Mat :=
  (List.range m).map fun i => (List.range p).map fun j => dot A B n i j

/-- The mathematical sum of the products that the steps of `l` add to cell `(i, j)`. -/
def contrib (A B : Mat) (l : List (Nat × Nat × Nat)) (i j : Nat) : Int :=
  (l.map fun t => if t.1 = i ∧ t.2.1 = j then A.cell i t.2.2 * B.cell t.2.2 j else 0).sum

/-- Neither the product nor the sum of the accumulation statement at `(i, j, k)` leaves
the 32-bit signed range when it is executed in state `s`. -/
def noOverflowAt (i j k : Nat) (s : State) : Prop :=
  inRange (s.m1.cell i k * s.m2.cell k j) ∧
    inRange (s.m3.cell i j + s.m1.cell i k * s.m2.cell k j)

instance (i j k : Nat) (s : State) : Decidable (noOverflowAt i j k s) := by
  unfold noOverflowAt; exact inferInstance

/-- No step of the sequence `l`, run from `s`, overflows. -/
def noOverflow : List (Nat × Nat × Nat) → State → Bool
  | [], _ => true
  | t :: l, s =>
    decide (noOverflowAt t.1 t.2.1 t.2.2 s) &&
      match accumulateAt t s with
      | some s1 => noOverflow l s1
      | none => true

/-- Value of a non-empty string of decimal digits. -/
def parseNat (cs : List Char) : Option Nat :=
  if cs ≠ [] ∧ cs.all Char.isDigit = true then
    some (cs.foldl (fun acc c => 10 * acc + (c.toNat - 48)) 0)
  else none

/-- Value of a decimal integer token: an optional minus sign, then digits. -/
def parseInt : List Char → Option Int
  | '-' :: cs => Option.map (fun n : Nat => -(n : Int)) (parseNat cs)
  | cs => Option.map (fun n : Nat => (n : Int)) (parseNat cs)

/-- The lines of a text in which every line is terminated by a newline;
`none` when the text does not end with a newline. -/
def linesOf (text : List Char) : Option (List (List Char)) :=
  match (text.splitOn '\n').reverse with
  | [] :: rest => some rest.reverse
  | _ => none

/-- The pieces of a line between space characters. -/
def pieces (line : List Char) : List (List Char) := line.splitOn ' '

/-- The integer tokens of a line: the pieces between spaces that are decimal integers,
with their values. -/
def intTokens (line : List Char) : List Int := (pieces line).filterMap parseInt

/-- The process seen from outside: command-line arguments and environment in,
text on standard output out.  `int main ()` declares no parameter and reads nothing. -/
def run (_argv _envp : List String) : Option String :=
  match main with
  | some s => some s.out
  | none => none

/-- A 3×4 array of `int` whose products overflow: every entry is `65536 = 2^16`. -/
def overflowA : Mat := List.replicate 3 (List.replicate 4 65536)

/-- A 4×2 array of `int` whose products overflow: every entry is `65536 = 2^16`. -/
def overflowB : Mat := List.replicate 4 (List.replicate 2 65536)

/-- The triples of `l` index inside an `m × n` by `n × p` product. -/
def inBounds (m n p : Nat) (l : List (Nat × Nat × Nat)) : Prop :=
  ∀ t ∈ l, t.1 < m ∧ t.2.1 < p ∧ t.2.2 < n

/-- The flat position of cell `(i, j)` in row-major order, for rows of `p` cells. -/
def rowMajor (p i j : Nat) : Nat := i * p + j

/-- Every entry of `M` has absolute value at most `b`. -/
def Mat.boundedBy (M : Mat) (b : Nat) : Prop := ∀ r ∈ M, ∀ x ∈ r, x.natAbs ≤ b

instance (M : Mat) (b : Nat) : Decidable (M.boundedBy b) := by
  unfold Mat.boundedBy; exact inferInstance

/-- How many steps of `l` address cell `(i, j)`. -/
def visits (l : List (Nat × Nat × Nat)) (i j : Nat) : Nat :=
  l.countP fun t => t.1 = i ∧ t.2.1 = j

/-- A 3×2 array of `int` holding the largest `int` in every cell. -/
def fullC : Mat := List.replicate 3 (List.replicate 2 2147483647)

/-- The 3×4 array of ones. -/
def onesA : Mat := List.replicate 3 (List.replicate 4 1)

/-- The 4×2 array of ones. -/
def onesB : Mat := List.replicate 4 (List.replicate 2 1)

/-- A 3×2 result array that is not zero when the multiply loop starts. -/
def startC : Mat := [[1, 2], [3, 4], [5, 6]]

/-- The steps of `multiply m n p` up to the end of the innermost loop for cell `(i, j)`:
the first `(rowMajor p i j + 1) * n` index triples. -/
def stepsThrough (m n p i j : Nat) : List (Nat × Nat × Nat) :=
  (ijkTriples m n p).take ((rowMajor p i j + 1) * n)

/-- The steps of `multiply m n p` after the innermost loop for cell `(i, j)` has ended. -/
def stepsAfter (m n p i j : Nat) : List (Nat × Nat × Nat) :=
  (ijkTriples m n p).drop ((rowMajor p i j + 1) * n)

/-- A 3×4 array of `int` with every entry `46341`, the least value whose square
exceeds `2^31 - 1`. -/
def rootA : Mat := List.replicate 3 (List.replicate 4 46341)

/-- A 4×2 array of `int` with every entry `46341`. -/
def rootB : Mat := List.replicate 4 (List.replicate 2 46341)

/-- The 3×4 array with every entry `23170`, the largest bound without overflow. -/
def edgeA : Mat := List.replicate 3 (List.replicate 4 23170)

/-- The 4×2 array with every entry `23170`. -/
def edgeB : Mat := List.replicate 4 (List.replicate 2 23170)

/-- The 3×4 array with every entry `23171`. -/
def tightA : Mat := List.replicate 3 (List.replicate 4 23171)

/-- The 4×2 array with every entry `23171`. -/
def tightB : Mat := List.replicate 4 (List.replicate 2 23171)

/-! # Theorems -/

/-! ## Machine arithmetic -/

theorem wrap32_add_left (x y : Int) : wrap32 (wrap32 x + y) = wrap32 (x + y) := by
  unfold wrap32
  have h : (x + 2147483648) % 4294967296 - 2147483648 + y + 2147483648
      = (x + 2147483648) % 4294967296 + y := by ring
  rw [h, Int.emod_add_emod]
  congr 2; ring

theorem wrap32_add_right (x y : Int) : wrap32 (x + wrap32 y) = wrap32 (x + y) := by
  rw [add_comm, wrap32_add_left, add_comm]

theorem wrap32_inRange (x : Int) : inRange (wrap32 x) := by
  unfold wrap32 inRange INT_MIN INT_MAX
  omega

theorem wrap32_of_inRange {x : Int} (h : inRange x) : wrap32 x = x := by
  unfold wrap32; unfold inRange INT_MIN INT_MAX at h
  omega

/-! ## Array reads and writes -/

theorem Mat.load_isSome {M : Mat} {r c i j : Nat} (h : M.hasShape r c) (hi : i < r) (hj : j < c) :
    ∃ v, M.load i j = some v := by
  obtain ⟨hl, hr⟩ := h
  have hi' : i < M.length := by omega
  have hrow : (M[i]).length = c := hr _ (List.getElem_mem _)
  refine ⟨(M[i])[j], ?_⟩
  simp [Mat.load, List.getElem?_eq_getElem hi', List.getElem?_eq_getElem (hrow ▸ hj)]

theorem Mat.load_eq_cell {M : Mat} {r c i j : Nat} (h : M.hasShape r c) (hi : i < r)
    (hj : j < c) : M.load i j = some (M.cell i j) := by
  obtain ⟨v, hv⟩ := Mat.load_isSome h hi hj
  simp [Mat.cell, hv]

theorem Mat.store_isSome {M : Mat} {r c i j : Nat} (v : Int) (h : M.hasShape r c) (hi : i < r)
    (hj : j < c) : ∃ M', M.store i j v = some M' := by
  obtain ⟨hl, hr⟩ := h
  have hi' : i < M.length := by omega
  have hrow : (M[i]).length = c := hr _ (List.getElem_mem _)
  refine ⟨M.set i ((M[i]).set j v), ?_⟩
  simp [Mat.store, List.getElem?_eq_getElem hi', hrow, hj]

theorem Mat.store_hasShape {M M' : Mat} {r c i j : Nat} {v : Int} (hs : M.store i j v = some M')
    (h : M.hasShape r c) : M'.hasShape r c := by
  obtain ⟨hl, hr⟩ := h
  unfold Mat.store at hs
  split at hs
  · cases hs
  · rename_i row hrow
    split at hs
    · cases hs
      refine ⟨by simpa using hl, ?_⟩
      intro x hx
      rcases List.mem_or_eq_of_mem_set hx with hx | hx
      · exact hr x hx
      · subst hx
        rw [List.length_set]
        exact hr row (List.getElem?_mem hrow)
    · cases hs

theorem Mat.load_store {M M' : Mat} {i j : Nat} {v : Int} (hs : M.store i j v = some M')
    (i' j' : Nat) :
    M'.load i' j' = if i' = i ∧ j' = j then some v else M.load i' j' := by
  unfold Mat.store at hs
  split at hs
  · cases hs
  · rename_i row hrow
    split at hs
    · rename_i hj
      cases hs
      have hi : i < M.length := (List.getElem?_eq_some_iff.mp hrow).1
      unfold Mat.load
      by_cases hii : i' = i
      · subst hii
        simp only [List.getElem?_set_self hi, hrow, true_and]
        by_cases hjj : j' = j
        · subst hjj; simp [List.getElem?_set_self hj]
        · simp [hjj, List.getElem?_set_ne (Ne.symm hjj)]
      · simp [hii, List.getElem?_set_ne (Ne.symm hii)]
    · cases hs

theorem Mat.cell_store {M M' : Mat} {i j : Nat} {v : Int} (hs : M.store i j v = some M')
    (i' j' : Nat) :
    M'.cell i' j' = if i' = i ∧ j' = j then v else M.cell i' j' := by
  unfold Mat.cell
  rw [Mat.load_store hs]
  split <;> rfl

/-- Two arrays of the same shape with the same entries are the same array. -/
theorem Mat.ext_of_load {M N : Mat} {r c : Nat} (hM : M.hasShape r c) (hN : N.hasShape r c)
    (h : ∀ i j, i < r → j < c → M.load i j = N.load i j) : M = N := by
  obtain ⟨hMl, hMr⟩ := hM
  obtain ⟨hNl, hNr⟩ := hN
  apply List.ext_getElem (by omega)
  intro i h1 h2
  have hrM : (M[i]).length = c := hMr _ (List.getElem_mem _)
  have hrN : (N[i]).length = c := hNr _ (List.getElem_mem _)
  apply List.ext_getElem (by omega)
  intro j h3 h4
  have := h i j (by omega) (by omega)
  simpa [Mat.load, List.getElem?_eq_getElem h1, List.getElem?_eq_getElem h2,
    List.getElem?_eq_getElem h3, List.getElem?_eq_getElem h4] using this

theorem zeros_hasShape (r c : Nat) : (zeros r c).hasShape r c := by
  unfold zeros Mat.hasShape
  refine ⟨by simp, ?_⟩
  intro x hx
  rw [List.eq_of_mem_replicate hx]; simp

theorem zeros_cell (r c i j : Nat) : (zeros r c).cell i j = 0 := by
  unfold Mat.cell Mat.load zeros
  rw [List.getElem?_replicate]
  by_cases hi : i < r
  · by_cases hj : j < c <;> simp [hi, hj, List.getElem?_replicate]
  · simp [hi]

/-! ## Loops as sequences of steps -/

theorem runList_append {α : Type} (step : α → State → Option State) (l1 l2 : List α)
    (s : State) :
    runList step (l1 ++ l2) s =
      match runList step l1 s with
      | none => none
      | some s1 => runList step l2 s1 := by
  induction l1 generalizing s with
  | nil => rfl
  | cons a l ih =>
    simp only [List.cons_append, runList]
    cases step a s with
    | none => rfl
    | some s1 => exact ih s1

theorem forFrom_eq_runList (body : Nat → State → Option State) (count i : Nat) (s : State) :
    forFrom body count i s = runList body (List.range' i count) s := by
  induction count generalizing i s with
  | zero => rfl
  | succ c ih =>
    simp only [forFrom, List.range'_succ, runList]
    cases body i s with
    | none => rfl
    | some s1 => exact ih (i + 1) s1

theorem forLoop_eq_runList (bound : Nat) (body : Nat → State → Option State) (s : State) :
    forLoop bound body s = runList body (List.range bound) s := by
  rw [List.range_eq_range']
  exact forFrom_eq_runList body bound 0 s

theorem runList_flatMap {α β : Type} (step : β → State → Option State) (h : α → List β)
    (l : List α) (s : State) :
    runList (fun a s => runList step (h a) s) l s = runList step (l.flatMap h) s := by
  induction l generalizing s with
  | nil => rfl
  | cons a l ih =>
    simp only [List.flatMap_cons, runList, runList_append]
    cases runList step (h a) s with
    | none => rfl
    | some s1 => exact ih s1

theorem runList_map {α β : Type} (step : β → State → Option State) (f : α → β)
    (l : List α) (s : State) :
    runList (fun a s => step (f a) s) l s = runList step (l.map f) s := by
  induction l generalizing s with
  | nil => rfl
  | cons a l ih =>
    simp only [List.map_cons, runList]
    cases step (f a) s with
    | none => rfl
    | some s1 => exact ih s1

/-- Three nested counted loops around the accumulation statement run it over the
corresponding sequence of index triples. -/
theorem nest_eq_runList (b1 b2 b3 : Nat) (f : Nat → Nat → Nat → Nat × Nat × Nat) (s : State) :
    forLoop b1 (fun x => forLoop b2 (fun y => forLoop b3 (fun z => accumulateAt (f x y z)))) s
      = runList accumulateAt
          ((List.range b1).flatMap fun x => (List.range b2).flatMap fun y =>
            (List.range b3).map fun z => f x y z) s := by
  rw [forLoop_eq_runList, ← runList_flatMap]
  congr 1
  funext x s
  rw [forLoop_eq_runList, ← runList_flatMap]
  congr 1
  funext y s
  rw [forLoop_eq_runList, ← runList_map]

theorem multiply_eq_runList (m n p : Nat) (s : State) :
    multiply m n p s = runList accumulateAt (ijkTriples m n p) s :=
  nest_eq_runList m p n (fun i j k => (i, j, k)) s

/-! ## The accumulation statement -/

/-- Inside the array bounds the accumulation statement succeeds, changes `m3` at `(i, j)`
only, and stores the wrapped sum there. -/
theorem accumulate_spec {m n p i j k : Nat} {s : State} (h1 : s.m1.hasShape m n)
    (h2 : s.m2.hasShape n p) (h3 : s.m3.hasShape m p) (hi : i < m) (hj : j < p) (hk : k < n) :
    ∃ M3, accumulate i j k s = some { s with m3 := M3 } ∧ M3.hasShape m p ∧
      ∀ i' j', M3.cell i' j' =
        if i' = i ∧ j' = j then wrap32 (s.m3.cell i j + wrap32 (s.m1.cell i k * s.m2.cell k j))
        else s.m3.cell i' j' := by
  have ha := Mat.load_eq_cell h1 hi hk
  have hb := Mat.load_eq_cell h2 hk hj
  have hc := Mat.load_eq_cell h3 hi hj
  obtain ⟨M3, hM3⟩ := Mat.store_isSome
    (wrap32 (s.m3.cell i j + wrap32 (s.m1.cell i k * s.m2.cell k j))) h3 hi hj
  refine ⟨M3, ?_, Mat.store_hasShape hM3 h3, fun i' j' => Mat.cell_store hM3 i' j'⟩
  simp only [accumulate, ha, hb, hc, hM3]

theorem contrib_cons (A B : Mat) (t : Nat × Nat × Nat) (l : List (Nat × Nat × Nat))
    (i j : Nat) :
    contrib A B (t :: l) i j =
      (if t.1 = i ∧ t.2.1 = j then A.cell i t.2.2 * B.cell t.2.2 j else 0)
        + contrib A B l i j := by
  simp [contrib]

/-- Closed form of a run of the accumulation statement over any in-bounds sequence of
index triples: the inputs and the output text are untouched, and each cell of `m3` grows,
modulo `2^32`, by the products addressed to it. -/
theorem runList_accumulate_spec (m n p : Nat) (l : List (Nat × Nat × Nat)) (s : State)
    (hl : inBounds m n p l) (h1 : s.m1.hasShape m n) (h2 : s.m2.hasShape n p)
    (h3 : s.m3.hasShape m p) :
    ∃ M3, runList accumulateAt l s = some { s with m3 := M3 } ∧ M3.hasShape m p ∧
      (∀ i j, wrap32 (M3.cell i j) = wrap32 (s.m3.cell i j + contrib s.m1 s.m2 l i j)) ∧
      ((∀ i j, inRange (s.m3.cell i j)) → ∀ i j, inRange (M3.cell i j)) := by
  induction l generalizing s with
  | nil =>
    exact ⟨s.m3, rfl, h3, fun i j => by simp [contrib], fun h => h⟩
  | cons t l ih =>
    obtain ⟨hi, hj, hk⟩ := hl t (List.mem_cons_self _ _)
    obtain ⟨M1, hacc, hM1, hcell⟩ := accumulate_spec h1 h2 h3 hi hj hk
    obtain ⟨M3, hrun, hM3, hsum, hrange⟩ :=
      ih { s with m3 := M1 } (fun u hu => hl u (List.mem_cons_of_mem _ hu)) h1 h2 hM1
    refine ⟨M3, ?_, hM3, ?_, ?_⟩
    · simp only [runList, accumulateAt, hacc]
      exact hrun
    · intro i j
      rw [hsum i j, contrib_cons]
      simp only [hcell i j]
      by_cases hij : i = t.1 ∧ j = t.2.1
      · obtain ⟨rfl, rfl⟩ := hij
        simp only [and_self, if_true]
        rw [wrap32_add_left, add_assoc, add_left_comm, wrap32_add_left, add_left_comm]
      · have hij' : ¬ (t.1 = i ∧ t.2.1 = j) := fun h => hij ⟨h.1.symm, h.2.symm⟩
        simp [hij, hij']
    · intro hr
      apply hrange
      intro i j
      simp only [hcell i j]
      split
      · exact wrap32_inRange _
      · exact hr i j

/-! ## The products addressed to a cell -/

theorem sum_map_flatMap {α β : Type} (f : β → Int) (h : α → List β) (l : List α) :
    ((l.flatMap h).map f).sum = (l.map fun a => ((h a).map f).sum).sum := by
  induction l with
  | nil => rfl
  | cons a l ih => simp [List.flatMap_cons, ih]

theorem sum_range_ite (b j : Nat) (P : Prop) [Decidable P] (D : Int) :
    ((List.range b).map fun x => if P ∧ x = j then D else 0).sum
      = if P ∧ j < b then D else 0 := by
  induction b with
  | zero => simp
  | succ b ih =>
    rw [List.range_succ, List.map_append, List.sum_append, ih]
    by_cases hP : P
    · by_cases h1 : j < b
      · have h2 : b ≠ j := by omega
        have h3 : j < b + 1 := by omega
        simp [hP, h1, h2, h3]
      · by_cases h2 : b = j
        · have h3 : j < b + 1 := by omega
          simp [hP, h1, h2, h3]
        · have h3 : ¬ j < b + 1 := by omega
          simp [hP, h1, h2, h3]
    · simp [hP]

theorem sum_range_ite_left (b i : Nat) (P : Prop) [Decidable P] (D : Int) :
    ((List.range b).map fun x => if x = i ∧ P then D else 0).sum
      = if P ∧ i < b then D else 0 := by
  rw [← sum_range_ite b i P D]
  congr 2
  funext x
  by_cases h1 : x = i <;> by_cases h2 : P <;> simp [h1, h2]

/-- Over the index triples of the `i`-`j`-`k` nesting, the products addressed to an
in-range cell `(i, j)` sum to the dot product of row `i` and column `j`. -/
theorem contrib_ijkTriples (A B : Mat) (m n p i j : Nat) (hi : i < m) (hj : j < p) :
    contrib A B (ijkTriples m n p) i j = dot A B n i j := by
  unfold contrib ijkTriples
  rw [sum_map_flatMap]
  have inner : ∀ i' j' : Nat,
      (((List.range n).map fun k => (i', j', k)).map fun t : Nat × Nat × Nat =>
          if t.1 = i ∧ t.2.1 = j then A.cell i t.2.2 * B.cell t.2.2 j else 0).sum
        = if i' = i ∧ j' = j then dot A B n i j else 0 := by
    intro i' j'
    rw [List.map_map]
    by_cases h : i' = i ∧ j' = j
    · simp [h, dot, Function.comp_def]
    · simp [h, Function.comp_def]
  have middle : ∀ i' : Nat,
      (((List.range p).flatMap fun j' => (List.range n).map fun k => (i', j', k)).map
          fun t : Nat × Nat × Nat =>
            if t.1 = i ∧ t.2.1 = j then A.cell i t.2.2 * B.cell t.2.2 j else 0).sum
        = if i' = i ∧ True then dot A B n i j else 0 := by
    intro i'
    rw [sum_map_flatMap]
    simp only [inner]
    rw [sum_range_ite]
    simp [hj]
  simp only [middle]
  rw [sum_range_ite_left]
  simp [hi]

theorem ijkTriples_inBounds (m n p : Nat) : inBounds m n p (ijkTriples m n p) := by
  intro t ht
  simp only [ijkTriples, List.mem_flatMap, List.mem_map, List.mem_range] at ht
  obtain ⟨i, hi, j, hj, k, hk, rfl⟩ := ht
  exact ⟨hi, hj, hk⟩

/-! ## Decimal text -/

theorem digitChar_isDigit (d : Nat) (h : d < 10) : (Nat.digitChar d).isDigit = true := by
  interval_cases d <;> decide

theorem digitChar_value (d : Nat) (h : d < 10) : (Nat.digitChar d).toNat - 48 = d := by
  interval_cases d <;> decide

/-- With enough fuel, the digit generator puts in front of its accumulator a non-empty
string of decimal digits whose value is the number rendered. -/
theorem toDigitsCore_spec (fuel n : Nat) (ds : List Char) (h : n < fuel) :
    ∃ pre : List Char, pre ≠ [] ∧ (∀ c ∈ pre, c.isDigit = true) ∧
      Nat.toDigitsCore 10 fuel n ds = pre ++ ds ∧
      pre.foldl (fun acc c => 10 * acc + (c.toNat - 48)) 0 = n := by
  induction fuel generalizing n ds with
  | zero => omega
  | succ fuel ih =>
    have hd := digitChar_isDigit (n % 10) (Nat.mod_lt _ (by decide))
    have hv := digitChar_value (n % 10) (Nat.mod_lt _ (by decide))
    by_cases h0 : n / 10 = 0
    · refine ⟨[Nat.digitChar (n % 10)], by simp, by simpa using hd, ?_, ?_⟩
      · simp [Nat.toDigitsCore, h0]
      · simp only [List.foldl, hv]
        omega
    · obtain ⟨pre, hne, hdig, heq, hval⟩ :=
        ih (n / 10) (Nat.digitChar (n % 10) :: ds) (by omega)
      refine ⟨pre ++ [Nat.digitChar (n % 10)], by simp, ?_, ?_, ?_⟩
      · intro c hc
        rcases List.mem_append.mp hc with hc | hc
        · exact hdig c hc
        · rw [List.mem_singleton.mp hc]; exact hd
      · simp [Nat.toDigitsCore, h0, heq]
      · rw [List.foldl_append, hval]
        simp only [List.foldl, hv]
        omega

theorem toDigits_spec (n : Nat) :
    Nat.toDigits 10 n ≠ [] ∧ (∀ c ∈ Nat.toDigits 10 n, c.isDigit = true) ∧
      parseNat (Nat.toDigits 10 n) = some n := by
  obtain ⟨pre, hne, hdig, heq, hval⟩ := toDigitsCore_spec (n + 1) n [] (by omega)
  have hpre : Nat.toDigits 10 n = pre := by
    unfold Nat.toDigits; rw [heq, List.append_nil]
  rw [hpre]
  refine ⟨hne, hdig, ?_⟩
  have hall : pre.all Char.isDigit = true := List.all_eq_true.mpr hdig
  simp [parseNat, hne, hall, hval]

theorem dec_toList (v : Int) :
    (dec v).toList = if v < 0 then '-' :: Nat.toDigits 10 v.natAbs
      else Nat.toDigits 10 v.natAbs := by
  unfold dec
  split <;> rfl

/-- The decimal rendering of an `int` holds neither a space nor a newline. -/
theorem dec_no_separator (v : Int) : ' ' ∉ (dec v).toList ∧ '\n' ∉ (dec v).toList := by
  have hdig := (toDigits_spec v.natAbs).2.1
  have key : ∀ c ∈ (dec v).toList, c = '-' ∨ c.isDigit = true := by
    intro c hc
    rw [dec_toList] at hc
    split at hc
    · rcases List.mem_cons.mp hc with hc | hc
      · exact Or.inl hc
      · exact Or.inr (hdig c hc)
    · exact Or.inr (hdig c hc)
  constructor
  · intro hmem
    rcases key _ hmem with h | h
    · exact absurd h (by decide)
    · exact absurd h (by decide)
  · intro hmem
    rcases key _ hmem with h | h
    · exact absurd h (by decide)
    · exact absurd h (by decide)

theorem parseInt_of_head_ne (c : Char) (cs : List Char) (h : c ≠ '-') :
    parseInt (c :: cs) = Option.map (fun n : Nat => (n : Int)) (parseNat (c :: cs)) := by
  unfold parseInt
  split
  · rename_i heq
    cases heq
    exact absurd rfl h
  · rfl

/-- Reading back the decimal rendering of an `int` gives the `int`. -/
theorem parseInt_dec (v : Int) : parseInt (dec v).toList = some v := by
  obtain ⟨hne, hdig, hval⟩ := toDigits_spec v.natAbs
  rw [dec_toList]
  split
  · rename_i hneg
    simp only [parseInt, hval, Option.map_some']
    congr 1
    omega
  · rename_i hpos
    cases hds : Nat.toDigits 10 v.natAbs with
    | nil => exact absurd hds hne
    | cons c cs =>
      have hc : c ≠ '-' := by
        intro hc
        have := hdig c (by rw [hds]; exact List.mem_cons_self _ _)
        rw [hc] at this
        exact absurd this (by decide)
      rw [parseInt_of_head_ne c cs hc, ← hds, hval, Option.map_some']
      congr 1
      omega

theorem splitOn_two (x : Char) (u v : List Char) (hu : x ∉ u) (hv : x ∉ v) :
    (u ++ x :: (v ++ [x])).splitOn x = [u, v, []] := by
  have h := List.splitOn_intercalate [u, v, []] x
    (by
      intro l hl
      simp only [List.mem_cons, List.mem_singleton, List.not_mem_nil, or_false] at hl
      rcases hl with rfl | rfl | rfl
      · exact hu
      · exact hv
      · simp)
    (by simp)
  simpa [List.intercalate, List.intersperse] using h

theorem splitOn_three (x : Char) (u v w : List Char) (hu : x ∉ u) (hv : x ∉ v) (hw : x ∉ w) :
    (u ++ x :: (v ++ x :: (w ++ [x]))).splitOn x = [u, v, w, []] := by
  have h := List.splitOn_intercalate [u, v, w, []] x
    (by
      intro l hl
      simp only [List.mem_cons, List.mem_singleton, List.not_mem_nil, or_false] at hl
      rcases hl with rfl | rfl | rfl | rfl
      · exact hu
      · exact hv
      · exact hw
      · simp)
    (by simp)
  simpa [List.intercalate, List.intersperse] using h

/-! ## The multiply loop from a zero-initialised result -/

/-- Closed form of the multiply loop started on a zero-initialised result array. -/
theorem multiply_zeros_spec (m n p : Nat) (A B : Mat) (text : String)
    (hA : A.hasShape m n) (hB : B.hasShape n p) :
    ∃ C, multiply m n p ⟨A, B, zeros m p, text⟩ = some ⟨A, B, C, text⟩ ∧ C.hasShape m p ∧
      ∀ i j, i < m → j < p → C.load i j = some (wrap32 (dot A B n i j)) := by
  obtain ⟨C, hrun, hC, hsum, hrange⟩ :=
    runList_accumulate_spec m n p (ijkTriples m n p) ⟨A, B, zeros m p, text⟩
      (ijkTriples_inBounds m n p) hA hB (zeros_hasShape m p)
  refine ⟨C, by rw [multiply_eq_runList]; exact hrun, hC, ?_⟩
  intro i j hi hj
  have h1 := hsum i j
  have h2 : inRange (C.cell i j) :=
    hrange (fun i j => by simp only [zeros_cell]; decide) i j
  rw [wrap32_of_inRange h2] at h1
  rw [Mat.load_eq_cell hC hi hj, h1]
  simp only [zeros_cell, zero_add, contrib_ijkTriples A B m n p i j hi hj]

theorem dot_zeros_left (B : Mat) (m n i j : Nat) : dot (zeros m n) B n i j = 0 := by
  simp [dot, zeros_cell]

theorem dot_zeros_right (A : Mat) (n p i j : Nat) : dot A (zeros n p) n i j = 0 := by
  simp [dot, zeros_cell]

theorem zeros_load {r c i j : Nat} (hi : i < r) (hj : j < c) :
    (zeros r c).load i j = some 0 := by
  rw [Mat.load_eq_cell (zeros_hasShape r c) hi hj, zeros_cell]

/-- Running the accumulation statement over two in-bounds sequences of index triples that
are permutations of each other gives the same state. -/
theorem runList_accumulate_perm (m n p : Nat) (l l' : List (Nat × Nat × Nat)) (s : State)
    (hperm : l.Perm l') (hl : inBounds m n p l) (h1 : s.m1.hasShape m n)
    (h2 : s.m2.hasShape n p) (h3 : s.m3.hasShape m p) (hr : ∀ i j, inRange (s.m3.cell i j)) :
    runList accumulateAt l s = runList accumulateAt l' s := by
  have hl' : inBounds m n p l' := fun t ht => hl t (hperm.mem_iff.mpr ht)
  obtain ⟨M, hrun, hM, hsum, hrange⟩ := runList_accumulate_spec m n p l s hl h1 h2 h3
  obtain ⟨M', hrun', hM', hsum', hrange'⟩ := runList_accumulate_spec m n p l' s hl' h1 h2 h3
  have hc : ∀ i j, contrib s.m1 s.m2 l i j = contrib s.m1 s.m2 l' i j := by
    intro i j
    unfold contrib
    exact (hperm.map _).sum_eq
  have hMM : M = M' := by
    apply Mat.ext_of_load hM hM'
    intro i j hi hj
    rw [Mat.load_eq_cell hM hi hj, Mat.load_eq_cell hM' hi hj]
    have e1 := hsum i j
    have e2 := hsum' i j
    rw [wrap32_of_inRange (hrange hr i j)] at e1
    rw [wrap32_of_inRange (hrange' hr i j)] at e2
    rw [e1, e2, hc i j]
  rw [hrun, hrun', hMM]

/-! ## Printing -/

theorem hasShape_three_two {C : Mat} (h : C.hasShape 3 2) :
    ∃ a b c d e f : Int, C = [[a, b], [c, d], [e, f]] := by
  obtain ⟨hl, hr⟩ := h
  obtain ⟨r0, r1, r2, rfl⟩ := List.length_eq_three.mp hl
  obtain ⟨a, b, rfl⟩ := List.length_eq_two.mp (hr r0 (by simp))
  obtain ⟨c, d, rfl⟩ := List.length_eq_two.mp (hr r1 (by simp))
  obtain ⟨e, f, rfl⟩ := List.length_eq_two.mp (hr r2 (by simp))
  exact ⟨a, b, c, d, e, f, rfl⟩

/-- The characters of one printed row: each value followed by a space. -/
theorem rowText_pieces (a b : Int) :
    pieces ((dec a).toList ++ ' ' :: ((dec b).toList ++ [' ']))
        = [(dec a).toList, (dec b).toList, []] ∧
      intTokens ((dec a).toList ++ ' ' :: ((dec b).toList ++ [' '])) = [a, b] := by
  have hp : pieces ((dec a).toList ++ ' ' :: ((dec b).toList ++ [' ']))
      = [(dec a).toList, (dec b).toList, []] :=
    splitOn_two ' ' _ _ (dec_no_separator a).1 (dec_no_separator b).1
  refine ⟨hp, ?_⟩
  have hnil : parseInt [] = none := rfl
  simp only [intTokens, hp, List.filterMap_cons, List.filterMap_nil, parseInt_dec, hnil]

theorem rowText_no_newline (a b : Int) :
    '\n' ∉ (dec a).toList ++ ' ' :: ((dec b).toList ++ [' ']) := by
  intro h
  simp only [List.mem_append, List.mem_cons, List.mem_singleton, List.not_mem_nil] at h
  rcases h with h | h | h | h
  · exact (dec_no_separator a).2 h
  · exact absurd h (by decide)
  · exact (dec_no_separator b).2 h
  · exact absurd h (by decide)

/-- The print loop on a 3×2 array: the text appended and the untouched arrays. -/
theorem print_spec (A B C : Mat) (text : String) (hC : C.hasShape 3 2) :
    print 3 2 ⟨A, B, C, text⟩ = some ⟨A, B, C,
      text ++ dec (C.cell 0 0) ++ " " ++ dec (C.cell 0 1) ++ " " ++ "\n"
        ++ dec (C.cell 1 0) ++ " " ++ dec (C.cell 1 1) ++ " " ++ "\n"
        ++ dec (C.cell 2 0) ++ " " ++ dec (C.cell 2 1) ++ " " ++ "\n"⟩ := by
  obtain ⟨a, b, c, d, e, f, rfl⟩ := hasShape_three_two hC
  rfl

/-! ## The claims -/

/-- C1 (as amended): for every `m × n` array `A` and `n × p` array `B`, the triple loop run
on a zero-initialised `C` ends normally, leaves `A` and `B` as they were, and leaves in every
cell `C[i][j]` the sum `Σ_{k<n} A[i][k] * B[k][j]` reduced into the 32-bit signed range;
this is the sum itself whenever the sum fits a 32-bit `int`. -/
theorem multiply_computes_wrapped_product (m n p : Nat) (A B : Mat) (text : String)
    (hA : A.hasShape m n) (hB : B.hasShape n p) :
    ∃ C, multiply m n p ⟨A, B, zeros m p, text⟩ = some ⟨A, B, C, text⟩ ∧ C.hasShape m p ∧
      ∀ i j, i < m → j < p →
        C.load i j = some (wrap32 (dot A B n i j)) ∧
          (inRange (dot A B n i j) → C.load i j = some (dot A B n i j)) := by
  obtain ⟨C, hrun, hC, hload⟩ := multiply_zeros_spec m n p A B text hA hB
  exact ⟨C, hrun, hC, fun i j hi hj =>
    ⟨hload i j hi hj, fun h => by rw [hload i j hi hj, wrap32_of_inRange h]⟩⟩

/-- Witness for C1 (as amended), at the dimensions and arrays of `main`. -/
theorem multiply_computes_wrapped_product_witness :
    init.m1.hasShape 3 4 ∧ init.m2.hasShape 4 2 ∧
    ∃ C, multiply 3 4 2 ⟨init.m1, init.m2, zeros 3 2, ""⟩ = some ⟨init.m1, init.m2, C, ""⟩ ∧
      C.hasShape 3 2 ∧
      ∀ i j, i < 3 → j < 2 →
        C.load i j = some (wrap32 (dot init.m1 init.m2 4 i j)) ∧
          (inRange (dot init.m1 init.m2 4 i j) →
            C.load i j = some (dot init.m1 init.m2 4 i j)) :=
  ⟨by decide, by decide,
    multiply_computes_wrapped_product 3 4 2 init.m1 init.m2 "" (by decide) (by decide)⟩

/-- C1 fails as stated: with every entry of `A` (3×4) and `B` (4×2) equal to `65536`, all
of them 32-bit `int` values, each product `65536 * 65536 = 2^32` wraps to `0`, so the loop
leaves `C[0][0] = 0`, while the sum over `k` of `A[0][k] * B[k][0]` is `17179869184`. -/
theorem multiply_not_exact_counterexample :
    overflowA.hasShape 3 4 ∧ overflowB.hasShape 4 2 ∧ overflowA.inInt32 ∧ overflowB.inInt32 ∧
    (multiply 3 4 2 ⟨overflowA, overflowB, zeros 3 2, ""⟩).map (fun s => s.m3.load 0 0)
      = some (some 0) ∧
    dot overflowA overflowB 4 0 0 = 17179869184 ∧
    (multiply 3 4 2 ⟨overflowA, overflowB, zeros 3 2, ""⟩).map (fun s => s.m3.load 0 0)
      ≠ some (some (dot overflowA overflowB 4 0 0)) := by
  decide

/-- C2 fails as stated: the text written by `main` is not `"18 29\n19 29\n16 27\n"`. -/
theorem main_output_counterexample :
    main.map (fun s => s.out) ≠ some "18 29\n19 29\n16 27\n" := by
  decide

/-- C2 (as amended): for the literal arrays of `main`, the text written to standard output
is exactly the three lines `18 34 `, `17 35 `, `20 32 ` (each value followed by one space),
each terminated by a newline. -/
theorem main_output :
    main.map (fun s => s.out) = some "18 34 \n17 35 \n20 32 \n" := by
  decide

/-- C3: for the literal arrays of `main`, after the multiply loop `C[0][0]` is
`1*1 + 2*3 + 3*1 + 4*2 = 18` and `C[0][1]` is `1*2 + 2*4 + 3*4 + 4*3 = 34`. -/
theorem main_first_row :
    (multiply 3 4 2 init).map (fun s => (s.m3.load 0 0, s.m3.load 0 1))
      = some (some 18, some 34) ∧
    ((1 * 1 + 2 * 3 + 3 * 1 + 4 * 2 : Int) = 18 ∧ dot init.m1 init.m2 4 0 0 = 18) ∧
    ((1 * 2 + 2 * 4 + 3 * 4 + 4 * 3 : Int) = 34 ∧ dot init.m1 init.m2 4 0 1 = 34) := by
  decide

/-- C4 fails as stated: for the 3×2 array `[[18,34],[17,35],[20,32]]` the text written by
the print loop is not the values of each row joined by one space and ended by a newline. -/
theorem print_exact_format_counterexample :
    Mat.hasShape [[18, 34], [17, 35], [20, 32]] 3 2 ∧
    (print 3 2 ⟨init.m1, init.m2, [[18, 34], [17, 35], [20, 32]], ""⟩).map (fun s => s.out)
      ≠ some (dec 18 ++ " " ++ dec 34 ++ "\n" ++ dec 17 ++ " " ++ dec 35 ++ "\n"
          ++ dec 20 ++ " " ++ dec 32 ++ "\n") := by
  decide

/-- C4 (as amended): for every 3×2 array `C`, the print loop appends to the output, for
each row in order, the decimal text of each of the row's two values followed by a single
space, then a line break, and nothing else; it changes no array. -/
theorem print_renders (A B C : Mat) (text : String) (hC : C.hasShape 3 2) :
    print 3 2 ⟨A, B, C, text⟩ = some ⟨A, B, C,
      text ++ dec (C.cell 0 0) ++ " " ++ dec (C.cell 0 1) ++ " " ++ "\n"
        ++ dec (C.cell 1 0) ++ " " ++ dec (C.cell 1 1) ++ " " ++ "\n"
        ++ dec (C.cell 2 0) ++ " " ++ dec (C.cell 2 1) ++ " " ++ "\n"⟩ :=
  print_spec A B C text hC

/-- Witness for C4 (as amended), at the product computed by `main`. -/
theorem print_renders_witness :
    Mat.hasShape [[18, 34], [17, 35], [20, 32]] 3 2 ∧
    print 3 2 ⟨init.m1, init.m2, [[18, 34], [17, 35], [20, 32]], ""⟩
      = some ⟨init.m1, init.m2, [[18, 34], [17, 35], [20, 32]], "18 34 \n17 35 \n20 32 \n"⟩ :=
  ⟨by decide, print_renders init.m1 init.m2 [[18, 34], [17, 35], [20, 32]] "" (by decide)⟩

/-- C5 fails as stated: for the 3×2 array `[[18,34],[17,35],[20,32]]` the print loop writes
three newline-terminated lines, but splitting the first one, `18 34 `, on the space
character yields three pieces, not two, and the last piece is empty and is no integer. -/
theorem print_two_tokens_counterexample :
    Mat.hasShape [[18, 34], [17, 35], [20, 32]] 3 2 ∧
    ((print 3 2 ⟨init.m1, init.m2, [[18, 34], [17, 35], [20, 32]], ""⟩).bind
        fun s => linesOf s.out.toList)
      = some ["18 34 ".toList, "17 35 ".toList, "20 32 ".toList] ∧
    pieces "18 34 ".toList = ["18".toList, "34".toList, []] ∧
    (pieces "18 34 ".toList).length ≠ 2 ∧
    (pieces "18 34 ".toList).map parseInt = [some 18, some 34, none] := by
  decide

/-- C5 (as amended): for every 3×2 array `C`, the text written by the print loop is exactly
three newline-terminated lines; split on the space character, line `i` gives three pieces:
the decimal text of `C[i][0]`, the decimal text of `C[i][1]` and one empty piece (after the
last space); its integer tokens are exactly two and they read back, in order, as `C[i][0]`
and `C[i][1]`. -/
theorem print_lines_tokens (A B C : Mat) (hC : C.hasShape 3 2) :
    ∃ s l0 l1 l2, print 3 2 ⟨A, B, C, ""⟩ = some s ∧
      linesOf s.out.toList = some [l0, l1, l2] ∧
      (pieces l0 = [(dec (C.cell 0 0)).toList, (dec (C.cell 0 1)).toList, []] ∧
        intTokens l0 = [C.cell 0 0, C.cell 0 1]) ∧
      (pieces l1 = [(dec (C.cell 1 0)).toList, (dec (C.cell 1 1)).toList, []] ∧
        intTokens l1 = [C.cell 1 0, C.cell 1 1]) ∧
      (pieces l2 = [(dec (C.cell 2 0)).toList, (dec (C.cell 2 1)).toList, []] ∧
        intTokens l2 = [C.cell 2 0, C.cell 2 1]) := by
  refine ⟨_, _, _, _, print_spec A B C "" hC, ?_, rowText_pieces _ _, rowText_pieces _ _,
    rowText_pieces _ _⟩
  have htext : ("" ++ dec (C.cell 0 0) ++ " " ++ dec (C.cell 0 1) ++ " " ++ "\n"
        ++ dec (C.cell 1 0) ++ " " ++ dec (C.cell 1 1) ++ " " ++ "\n"
        ++ dec (C.cell 2 0) ++ " " ++ dec (C.cell 2 1) ++ " " ++ "\n").toList
      = ((dec (C.cell 0 0)).toList ++ ' ' :: ((dec (C.cell 0 1)).toList ++ [' ']))
        ++ '\n' :: (((dec (C.cell 1 0)).toList ++ ' ' :: ((dec (C.cell 1 1)).toList ++ [' ']))
        ++ '\n' :: (((dec (C.cell 2 0)).toList ++ ' ' :: ((dec (C.cell 2 1)).toList ++ [' ']))
        ++ ['\n'])) := by
    simp [String.toList, String.data_append]
  simp only [htext, linesOf]
  rw [splitOn_three '\n' _ _ _ (rowText_no_newline _ _) (rowText_no_newline _ _)
    (rowText_no_newline _ _)]
  rfl

/-- Witness for C5 (as amended), at the product computed by `main`. -/
theorem print_lines_tokens_witness :
    Mat.hasShape [[18, 34], [17, 35], [20, 32]] 3 2 ∧
    ∃ s l0 l1 l2, print 3 2 ⟨init.m1, init.m2, [[18, 34], [17, 35], [20, 32]], ""⟩ = some s ∧
      linesOf s.out.toList = some [l0, l1, l2] ∧
      (pieces l0 = [['1', '8'], ['3', '4'], []] ∧ intTokens l0 = [18, 34]) ∧
      (pieces l1 = [['1', '7'], ['3', '5'], []] ∧ intTokens l1 = [17, 35]) ∧
      (pieces l2 = [['2', '0'], ['3', '2'], []] ∧ intTokens l2 = [20, 32]) :=
  ⟨by decide,
    print_lines_tokens init.m1 init.m2 [[18, 34], [17, 35], [20, 32]] (by decide)⟩

/-- C6: started on a zero-initialised result, the multiply loop with the all-zero array on
the left (for every `n × p` array `B`) or on the right (for every `m × n` array `A`) ends
with the result still all zeros; `main` has `m = 3`, `n = 4`, `p = 2`. -/
theorem multiply_zero_matrix (m n p : Nat) (A B : Mat) (text : String)
    (hA : A.hasShape m n) (hB : B.hasShape n p) :
    multiply m n p ⟨zeros m n, B, zeros m p, text⟩ = some ⟨zeros m n, B, zeros m p, text⟩ ∧
    multiply m n p ⟨A, zeros n p, zeros m p, text⟩ = some ⟨A, zeros n p, zeros m p, text⟩ := by
  constructor
  · obtain ⟨C, hrun, hC, hcell⟩ :=
      multiply_zeros_spec m n p (zeros m n) B text (zeros_hasShape m n) hB
    have : C = zeros m p := by
      apply Mat.ext_of_load hC (zeros_hasShape m p)
      intro i j hi hj
      rw [(hcell i j hi hj), dot_zeros_left, zeros_load hi hj]
      rfl
    rw [hrun, this]
  · obtain ⟨C, hrun, hC, hcell⟩ :=
      multiply_zeros_spec m n p A (zeros n p) text hA (zeros_hasShape n p)
    have : C = zeros m p := by
      apply Mat.ext_of_load hC (zeros_hasShape m p)
      intro i j hi hj
      rw [(hcell i j hi hj), dot_zeros_right, zeros_load hi hj]
      rfl
    rw [hrun, this]

/-- Witness for C6, at the dimensions and arrays of `main`. -/
theorem multiply_zero_matrix_witness :
    init.m1.hasShape 3 4 ∧ init.m2.hasShape 4 2 ∧
    multiply 3 4 2 ⟨zeros 3 4, init.m2, zeros 3 2, ""⟩
      = some ⟨zeros 3 4, init.m2, zeros 3 2, ""⟩ ∧
    multiply 3 4 2 ⟨init.m1, zeros 4 2, zeros 3 2, ""⟩
      = some ⟨init.m1, zeros 4 2, zeros 3 2, ""⟩ :=
  ⟨by decide, by decide,
    multiply_zero_matrix 3 4 2 init.m1 init.m2 "" (by decide) (by decide)⟩

/-- C7: on the dimensions of `main` no array access is out of bounds.  Every index triple
visited by the multiply loop has `i < 3`, `j < 2`, `k < 4`; and from any state whose arrays
have the declared shapes 3×4, 4×2, 3×2 the multiply loop and then the print loop both
return a state, so no read or write took the out-of-range branch.  `main` itself returns
a state. -/
theorem no_out_of_bounds (s : State) (h1 : s.m1.hasShape 3 4) (h2 : s.m2.hasShape 4 2)
    (h3 : s.m3.hasShape 3 2) :
    inBounds 3 4 2 (ijkTriples 3 4 2) ∧
    multiply 3 4 2 s = runList accumulateAt (ijkTriples 3 4 2) s ∧
    (∃ s1 s2, multiply 3 4 2 s = some s1 ∧ s1.m3.hasShape 3 2 ∧ print 3 2 s1 = some s2) ∧
    main.isSome = true := by
  refine ⟨ijkTriples_inBounds 3 4 2, multiply_eq_runList 3 4 2 s, ?_, by decide⟩
  obtain ⟨M, hrun, hM, -, -⟩ :=
    runList_accumulate_spec 3 4 2 (ijkTriples 3 4 2) s (ijkTriples_inBounds 3 4 2) h1 h2 h3
  exact ⟨_, _, by rw [multiply_eq_runList]; exact hrun, hM, print_spec _ _ _ _ hM⟩

/-- Witness for C7, at the initial state of `main`. -/
theorem no_out_of_bounds_witness :
    init.m1.hasShape 3 4 ∧ init.m2.hasShape 4 2 ∧ init.m3.hasShape 3 2 ∧
    inBounds 3 4 2 (ijkTriples 3 4 2) ∧
    multiply 3 4 2 init = runList accumulateAt (ijkTriples 3 4 2) init ∧
    (∃ s1 s2, multiply 3 4 2 init = some s1 ∧ s1.m3.hasShape 3 2 ∧ print 3 2 s1 = some s2) ∧
    main.isSome = true :=
  ⟨by decide, by decide, by decide,
    no_out_of_bounds init (by decide) (by decide) (by decide)⟩

/-- The `Option` result does detect an access outside an array: one more row in either
loop fails. -/
theorem out_of_bounds_detected :
    multiply 4 4 2 init = none ∧ multiply 3 5 2 init = none ∧ multiply 3 4 3 init = none ∧
    print 4 2 init = none ∧ print 3 3 init = none := by
  decide

/-- C8: for the literal arrays of `main` nothing overflows.  The entries are 32-bit values;
at every step of the multiply loop the mathematical product `m1[i][k] * m2[k][j]` and the
mathematical sum stored into `m3[i][j]` lie in `[-2^31, 2^31 - 1]`; and the array computed
with 32-bit wraparound is the matrix product computed over the integers. -/
theorem main_no_overflow :
    (init.m1.inInt32 ∧ init.m2.inInt32 ∧ init.m3.inInt32) ∧
    multiply 3 4 2 init = runList accumulateAt (ijkTriples 3 4 2) init ∧
    noOverflow (ijkTriples 3 4 2) init = true ∧
    (∀ i, i < 3 → ∀ j, j < 2 → ∀ k, k < 4 →
      inRange (init.m1.cell i k * init.m2.cell k j) ∧
        inRange (dot init.m1 init.m2 (k + 1) i j)) ∧
    (multiply 3 4 2 init).map (fun s => s.m3) = some (matProduct init.m1 init.m2 3 4 2) := by
  refine ⟨by decide, multiply_eq_runList 3 4 2 init, by decide, by decide, by decide⟩

/-- C9: the program is deterministic and ignores its environment: whatever the command-line
arguments and environment variables of two runs, both write the same text, the fixed text
`"18 34 \n17 35 \n20 32 \n"`. -/
theorem run_deterministic (argv envp argv' envp' : List String) :
    run argv envp = run argv' envp' ∧ run argv envp = some "18 34 \n17 35 \n20 32 \n" := by
  refine ⟨rfl, ?_⟩
  unfold run
  decide

/-- C10: iteration order does not affect the result.  For every 3×4 array `A` and 4×2
array `B`, starting from a zero-initialised `C`, running the accumulation statement over
any permutation of the 24 index triples, and in particular under each of the five other
nestings of the three loops, ends in the same state as the `i`-`j`-`k` nesting of `main`. -/
theorem order_irrelevant (A B : Mat) (text : String) (hA : A.hasShape 3 4)
    (hB : B.hasShape 4 2) :
    (∀ l : List (Nat × Nat × Nat), l.Perm (ijkTriples 3 4 2) →
      runList accumulateAt l ⟨A, B, zeros 3 2, text⟩
        = multiply 3 4 2 ⟨A, B, zeros 3 2, text⟩) ∧
    multiplyIKJ 3 4 2 ⟨A, B, zeros 3 2, text⟩ = multiply 3 4 2 ⟨A, B, zeros 3 2, text⟩ ∧
    multiplyJIK 3 4 2 ⟨A, B, zeros 3 2, text⟩ = multiply 3 4 2 ⟨A, B, zeros 3 2, text⟩ ∧
    multiplyJKI 3 4 2 ⟨A, B, zeros 3 2, text⟩ = multiply 3 4 2 ⟨A, B, zeros 3 2, text⟩ ∧
    multiplyKIJ 3 4 2 ⟨A, B, zeros 3 2, text⟩ = multiply 3 4 2 ⟨A, B, zeros 3 2, text⟩ ∧
    multiplyKJI 3 4 2 ⟨A, B, zeros 3 2, text⟩ = multiply 3 4 2 ⟨A, B, zeros 3 2, text⟩ := by
  have key : ∀ l : List (Nat × Nat × Nat), l.Perm (ijkTriples 3 4 2) →
      runList accumulateAt l ⟨A, B, zeros 3 2, text⟩
        = multiply 3 4 2 ⟨A, B, zeros 3 2, text⟩ := by
    intro l hl
    rw [multiply_eq_runList]
    exact (runList_accumulate_perm 3 4 2 _ _ _ hl.symm (ijkTriples_inBounds 3 4 2) hA hB
      (zeros_hasShape 3 2) (fun i j => by simp only [zeros_cell]; decide)).symm
  refine ⟨key, ?_, ?_, ?_, ?_, ?_⟩
  · exact (nest_eq_runList 3 4 2 (fun i k j => (i, j, k)) _).trans (key _ (by decide))
  · exact (nest_eq_runList 2 3 4 (fun j i k => (i, j, k)) _).trans (key _ (by decide))
  · exact (nest_eq_runList 2 4 3 (fun j k i => (i, j, k)) _).trans (key _ (by decide))
  · exact (nest_eq_runList 4 3 2 (fun k i j => (i, j, k)) _).trans (key _ (by decide))
  · exact (nest_eq_runList 4 2 3 (fun k j i => (i, j, k)) _).trans (key _ (by decide))

/-- Witness for C10, at the arrays of `main`, with the reversed sequence of index triples
as the permutation. -/
theorem order_irrelevant_witness :
    init.m1.hasShape 3 4 ∧ init.m2.hasShape 4 2 ∧
    (ijkTriples 3 4 2).reverse.Perm (ijkTriples 3 4 2) ∧
    runList accumulateAt (ijkTriples 3 4 2).reverse ⟨init.m1, init.m2, zeros 3 2, ""⟩
      = multiply 3 4 2 ⟨init.m1, init.m2, zeros 3 2, ""⟩ ∧
    multiplyKJI 3 4 2 ⟨init.m1, init.m2, zeros 3 2, ""⟩
      = multiply 3 4 2 ⟨init.m1, init.m2, zeros 3 2, ""⟩ :=
  ⟨by decide, by decide, List.reverse_perm _,
    (order_irrelevant init.m1 init.m2 "" (by decide) (by decide)).1 _ (List.reverse_perm _),
    (order_irrelevant init.m1 init.m2 "" (by decide) (by decide)).2.2.2.2.2⟩

/-! ## What the loops leave untouched -/

theorem runList_preserves {α β : Type} (step : α → State → Option State) (f : State → β)
    (hstep : ∀ a s s', step a s = some s' → f s' = f s) (l : List α) (s s' : State)
    (h : runList step l s = some s') : f s' = f s := by
  induction l generalizing s with
  | nil => simp only [runList, Option.some.injEq] at h; rw [← h]
  | cons a l ih =>
    simp only [runList] at h
    cases hs : step a s with
    | none => rw [hs] at h; cases h
    | some s1 =>
      rw [hs] at h
      rw [ih s1 h, hstep a s s1 hs]

theorem accumulate_frame (i j k : Nat) (s s' : State) (h : accumulate i j k s = some s') :
    (s'.m1, s'.m2, s'.out) = (s.m1, s.m2, s.out) := by
  unfold accumulate at h
  split at h
  · split at h
    · cases h; rfl
    · cases h
  · cases h

theorem printCell_frame (i j : Nat) (s s' : State) (h : printCell i j s = some s') :
    (s'.m1, s'.m2, s'.m3) = (s.m1, s.m2, s.m3) := by
  unfold printCell at h
  split at h
  · cases h; rfl
  · cases h

theorem printRow_frame (p i : Nat) (s s' : State) (h : printRow p i s = some s') :
    (s'.m1, s'.m2, s'.m3) = (s.m1, s.m2, s.m3) := by
  unfold printRow at h
  split at h
  · rename_i s1 h1
    cases h
    rw [forLoop_eq_runList] at h1
    exact runList_preserves _ (fun s => (s.m1, s.m2, s.m3)) (printCell_frame i) _ _ s1 h1
  · cases h

/-- Whatever the bounds and the state, a multiply loop that returns has changed neither
`m1`, nor `m2`, nor the output text. -/
theorem multiply_frame (m n p : Nat) (s s' : State) (h : multiply m n p s = some s') :
    (s'.m1, s'.m2, s'.out) = (s.m1, s.m2, s.out) := by
  rw [multiply_eq_runList] at h
  exact runList_preserves _ (fun s => (s.m1, s.m2, s.out))
    (fun t s s' h => accumulate_frame t.1 t.2.1 t.2.2 s s' h) _ _ _ h

/-- Whatever the bounds and the state, a print loop that returns has changed no array. -/
theorem print_frame (m p : Nat) (s s' : State) (h : print m p s = some s') :
    (s'.m1, s'.m2, s'.m3) = (s.m1, s.m2, s.m3) := by
  unfold print at h
  rw [forLoop_eq_runList] at h
  exact runList_preserves _ (fun s => (s.m1, s.m2, s.m3)) (printRow_frame p) _ _ _ h

/-- C11: the input arrays are never modified and the result is read-only during printing.
For all arrays `A` (3×4), `B` (4×2), `C` (3×2) and any text already written, the multiply
loop returns a state with `m1 = A`, `m2 = B` and the output text as before, only `m3` being
replaced; the print loop returns a state with `m1 = A`, `m2 = B`, `m3 = C`.  Without any
assumption on the state or the bounds, a loop that returns has kept the same fields. -/
theorem loops_frame (A B C : Mat) (text : String) (hA : A.hasShape 3 4) (hB : B.hasShape 4 2)
    (hC : C.hasShape 3 2) :
    (∃ C', multiply 3 4 2 ⟨A, B, C, text⟩ = some ⟨A, B, C', text⟩) ∧
    (∃ text', print 3 2 ⟨A, B, C, text⟩ = some ⟨A, B, C, text'⟩) ∧
    (∀ m n p s s', multiply m n p s = some s' →
      s'.m1 = s.m1 ∧ s'.m2 = s.m2 ∧ s'.out = s.out) ∧
    (∀ m p s s', print m p s = some s' → s'.m1 = s.m1 ∧ s'.m2 = s.m2 ∧ s'.m3 = s.m3) := by
  refine ⟨?_, ⟨_, print_spec A B C text hC⟩, ?_, ?_⟩
  · obtain ⟨M, hrun, -, -, -⟩ :=
      runList_accumulate_spec 3 4 2 (ijkTriples 3 4 2) ⟨A, B, C, text⟩
        (ijkTriples_inBounds 3 4 2) hA hB hC
    exact ⟨M, by rw [multiply_eq_runList]; exact hrun⟩
  · intro m n p s s' h
    have := multiply_frame m n p s s' h
    simp only [Prod.mk.injEq] at this
    exact this
  · intro m p s s' h
    have := print_frame m p s s' h
    simp only [Prod.mk.injEq] at this
    exact this

/-- Witness for C11, at the arrays of `main` before and after the multiply loop. -/
theorem loops_frame_witness :
    init.m1.hasShape 3 4 ∧ init.m2.hasShape 4 2 ∧ init.m3.hasShape 3 2 ∧
    (∃ C', multiply 3 4 2 ⟨init.m1, init.m2, init.m3, ""⟩
      = some ⟨init.m1, init.m2, C', ""⟩) ∧
    (∃ text', print 3 2 ⟨init.m1, init.m2, init.m3, ""⟩
      = some ⟨init.m1, init.m2, init.m3, text'⟩) :=
  ⟨by decide, by decide, by decide,
    (loops_frame init.m1 init.m2 init.m3 "" (by decide) (by decide) (by decide)).1,
    (loops_frame init.m1 init.m2 init.m3 "" (by decide) (by decide) (by decide)).2.1⟩

/-- C12: the run of `main` on its literals ends with `m3 = [[18,34],[17,35],[20,32]]` and
with the output text `"18 34 \n17 35 \n20 32 \n"`; the text is three newline-terminated
lines and the last character of each line, right before the newline, is a space. -/
theorem main_result_and_text :
    main = some ⟨[[1, 2, 3, 4], [2, 3, 4, 1], [3, 4, 1, 2]], [[1, 2], [3, 4], [1, 4], [2, 3]],
      [[18, 34], [17, 35], [20, 32]], "18 34 \n17 35 \n20 32 \n"⟩ ∧
    (multiply 3 4 2 init).map (fun s => s.m3) = some [[18, 34], [17, 35], [20, 32]] ∧
    linesOf "18 34 \n17 35 \n20 32 \n".toList
      = some ["18 34 ".toList, "17 35 ".toList, "20 32 ".toList] ∧
    (∀ line ∈ ["18 34 ".toList, "17 35 ".toList, "20 32 ".toList],
      line.getLast? = some ' ') := by
  decide

/-! ## The multiply loop from an arbitrary result array -/

theorem Mat.cell_inRange {M : Mat} (h : M.inInt32) (i j : Nat) : inRange (M.cell i j) := by
  have h0 : inRange 0 := by decide
  unfold Mat.cell Mat.load
  cases hr : M[i]? with
  | none => exact h0
  | some r =>
    cases hx : r[j]? with
    | none => simp only [hx]; exact h0
    | some x =>
      simp only [hx, Option.getD_some]
      exact h r (List.getElem?_mem hr) x (List.getElem?_mem hx)

theorem matProduct_hasShape (A B : Mat) (m n p : Nat) : (matProduct A B m n p).hasShape m p := by
  unfold matProduct Mat.hasShape
  refine ⟨by simp, ?_⟩
  intro r hr
  obtain ⟨i, -, rfl⟩ := List.mem_map.mp hr
  simp

theorem matProduct_load (A B : Mat) {m n p i j : Nat} (hi : i < m) (hj : j < p) :
    (matProduct A B m n p).load i j = some (dot A B n i j) := by
  unfold matProduct Mat.load
  simp [List.getElem?_map, List.getElem?_range hi, List.getElem?_range hj]

/-- Closed form of the multiply loop started on any result array of 32-bit values. -/
theorem multiply_from_spec (m n p : Nat) (A B C0 : Mat) (text : String)
    (hA : A.hasShape m n) (hB : B.hasShape n p) (hC : C0.hasShape m p) (hr : C0.inInt32) :
    ∃ C, multiply m n p ⟨A, B, C0, text⟩ = some ⟨A, B, C, text⟩ ∧ C.hasShape m p ∧
      ∀ i j, i < m → j < p →
        C.load i j = some (wrap32 (C0.cell i j + dot A B n i j)) := by
  obtain ⟨C, hrun, hCs, hsum, hrange⟩ :=
    runList_accumulate_spec m n p (ijkTriples m n p) ⟨A, B, C0, text⟩
      (ijkTriples_inBounds m n p) hA hB hC
  refine ⟨C, by rw [multiply_eq_runList]; exact hrun, hCs, ?_⟩
  intro i j hi hj
  have h1 := hsum i j
  have h2 : inRange (C.cell i j) := hrange (fun i j => Mat.cell_inRange hr i j) i j
  rw [wrap32_of_inRange h2] at h1
  rw [Mat.load_eq_cell hCs hi hj, h1]
  simp only [contrib_ijkTriples A B m n p i j hi hj]

theorem wrap32_add_eq_right {c d : Int} (hc : inRange c) (hd : inRange d) :
    wrap32 (c + d) = d ↔ c = 0 := by
  unfold wrap32
  unfold inRange INT_MIN INT_MAX at hc hd
  omega

/-- C13 (as amended): the multiply loop accumulates into what `C` already holds.  For every
`m × n` array `A`, `n × p` array `B` and initial `m × p` array `C0` of 32-bit values, the
loop ends with `C[i][j]` equal to `C0[i][j] + Σ_{k<n} A[i][k] * B[k][j]` reduced into the
32-bit signed range, which is that sum itself whenever it fits; and when every dot product
fits a 32-bit `int`, the result is the matrix product if and only if `C0` is all zeros. -/
theorem multiply_accumulates (m n p : Nat) (A B C0 : Mat) (text : String)
    (hA : A.hasShape m n) (hB : B.hasShape n p) (hC : C0.hasShape m p) (hr : C0.inInt32) :
    ∃ C, multiply m n p ⟨A, B, C0, text⟩ = some ⟨A, B, C, text⟩ ∧ C.hasShape m p ∧
      (∀ i j, i < m → j < p →
        C.load i j = some (wrap32 (C0.cell i j + dot A B n i j)) ∧
          (inRange (C0.cell i j + dot A B n i j) →
            C.load i j = some (C0.cell i j + dot A B n i j))) ∧
      ((∀ i j, i < m → j < p → inRange (dot A B n i j)) →
        (C = matProduct A B m n p ↔ C0 = zeros m p)) := by
  obtain ⟨C, hrun, hCs, hload⟩ := multiply_from_spec m n p A B C0 text hA hB hC hr
  refine ⟨C, hrun, hCs, ?_, ?_⟩
  · intro i j hi hj
    exact ⟨hload i j hi hj, fun h => by rw [hload i j hi hj, wrap32_of_inRange h]⟩
  · intro hfit
    constructor
    · intro hprod
      apply Mat.ext_of_load hC (zeros_hasShape m p)
      intro i j hi hj
      have h1 := hload i j hi hj
      rw [hprod, matProduct_load A B hi hj] at h1
      have h2 : C0.cell i j = 0 :=
        (wrap32_add_eq_right (Mat.cell_inRange hr i j) (hfit i j hi hj)).mp
          (Option.some.inj h1).symm
      rw [Mat.load_eq_cell hC hi hj, h2, zeros_load hi hj]
    · intro hzero
      apply Mat.ext_of_load hCs (matProduct_hasShape A B m n p)
      intro i j hi hj
      rw [hload i j hi hj, matProduct_load A B hi hj, hzero, zeros_cell, zero_add,
        wrap32_of_inRange (hfit i j hi hj)]

/-- Witness for C13 (as amended), at the input arrays of `main` and the non-zero start
`C0 = [[1,2],[3,4],[5,6]]`: the loop ends with `[[19,36],[20,39],[25,38]]`, each cell of
the product `[[18,34],[17,35],[20,32]]` added to what the cell held, so the result is not
the product. -/
theorem multiply_accumulates_witness :
    init.m1.hasShape 3 4 ∧ init.m2.hasShape 4 2 ∧ startC.hasShape 3 2 ∧ startC.inInt32 ∧
    startC ≠ zeros 3 2 ∧
    multiply 3 4 2 ⟨init.m1, init.m2, startC, ""⟩
      = some ⟨init.m1, init.m2, [[19, 36], [20, 39], [25, 38]], ""⟩ ∧
    matProduct init.m1 init.m2 3 4 2 = [[18, 34], [17, 35], [20, 32]] ∧
    ∃ C, multiply 3 4 2 ⟨init.m1, init.m2, startC, ""⟩ = some ⟨init.m1, init.m2, C, ""⟩ ∧
      C.hasShape 3 2 ∧
      (∀ i j, i < 3 → j < 2 →
        C.load i j = some (wrap32 (startC.cell i j + dot init.m1 init.m2 4 i j)) ∧
          (inRange (startC.cell i j + dot init.m1 init.m2 4 i j) →
            C.load i j = some (startC.cell i j + dot init.m1 init.m2 4 i j))) ∧
      ((∀ i j, i < 3 → j < 2 → inRange (dot init.m1 init.m2 4 i j)) →
        (C = matProduct init.m1 init.m2 3 4 2 ↔ startC = zeros 3 2)) :=
  ⟨by decide, by decide, by decide, by decide, by decide, by decide, by decide,
    multiply_accumulates 3 4 2 init.m1 init.m2 startC ""
      (by decide) (by decide) (by decide) (by decide)⟩

/-- C13 fails as stated: with `A` and `B` all ones and every cell of `C0` equal to
`2147483647`, all of them 32-bit `int` values, the loop leaves `C[0][0] = -2147483645`,
while `C0[0][0]` plus the sum over `k` of `A[0][k] * B[k][0]` is `2147483651`. -/
theorem multiply_accumulates_counterexample :
    onesA.hasShape 3 4 ∧ onesB.hasShape 4 2 ∧ fullC.hasShape 3 2 ∧
    onesA.inInt32 ∧ onesB.inInt32 ∧ fullC.inInt32 ∧
    (multiply 3 4 2 ⟨onesA, onesB, fullC, ""⟩).map (fun s => s.m3.load 0 0)
      = some (some (-2147483645)) ∧
    fullC.cell 0 0 + dot onesA onesB 4 0 0 = 2147483651 ∧
    (multiply 3 4 2 ⟨onesA, onesB, fullC, ""⟩).map (fun s => s.m3.load 0 0)
      ≠ some (some (fullC.cell 0 0 + dot onesA onesB 4 0 0)) := by
  decide

/-! ## The state between two cells -/

theorem contrib_eq_filter (A B : Mat) (l : List (Nat × Nat × Nat)) (i j : Nat) :
    contrib A B l i j =
      (((l.filter fun t => decide (t.1 = i ∧ t.2.1 = j)).map fun t => t.2.2).map
        fun k => A.cell i k * B.cell k j).sum := by
  induction l with
  | nil => rfl
  | cons t l ih =>
    rw [contrib_cons, ih]
    by_cases h : t.1 = i ∧ t.2.1 = j
    · simp [List.filter_cons, h]
    · simp [List.filter_cons, h]

/-- On the dimensions of `main`, the steps up to the end of cell `(i, j)` address each cell
at or before `(i, j)` with `k = 0, 1, 2, 3` and no later cell. -/
theorem stepsThrough_filter :
    ∀ i, i < 3 → ∀ j, j < 2 → ∀ i', i' < 3 → ∀ j', j' < 2 →
      ((stepsThrough 3 4 2 i j).filter fun t => decide (t.1 = i' ∧ t.2.1 = j')).map
          (fun t => t.2.2)
        = if rowMajor 2 i' j' ≤ rowMajor 2 i j then List.range 4 else [] := by
  decide

theorem stepsThrough_contrib (A B : Mat) {i j i' j' : Nat} (hi : i < 3) (hj : j < 2)
    (hi' : i' < 3) (hj' : j' < 2) :
    contrib A B (stepsThrough 3 4 2 i j) i' j'
      = if rowMajor 2 i' j' ≤ rowMajor 2 i j then dot A B 4 i' j' else 0 := by
  rw [contrib_eq_filter, stepsThrough_filter i hi j hj i' hi' j' hj']
  split
  · rfl
  · rfl

theorem stepsThrough_inBounds (m n p i j : Nat) : inBounds m n p (stepsThrough m n p i j) :=
  fun t ht => ijkTriples_inBounds m n p t (List.mem_of_mem_take ht)

theorem stepsThrough_append_stepsAfter (m n p i j : Nat) :
    stepsThrough m n p i j ++ stepsAfter m n p i j = ijkTriples m n p :=
  List.take_append_drop _ _

/-- On the dimensions of `main`: the last step before the cut is `(i, j, 3)`, no later step
addresses a cell at or before `(i, j)`, there are 24 steps in all, 4 for each cell. -/
theorem steps_facts :
    (∀ i, i < 3 → ∀ j, j < 2 → (stepsThrough 3 4 2 i j).getLast? = some (i, j, 3)) ∧
    (∀ i, i < 3 → ∀ j, j < 2 → ∀ i', i' < 3 → ∀ j', j' < 2 →
      rowMajor 2 i' j' ≤ rowMajor 2 i j → visits (stepsAfter 3 4 2 i j) i' j' = 0) ∧
    (ijkTriples 3 4 2).length = 24 ∧
    (∀ i', i' < 3 → ∀ j', j' < 2 → visits (ijkTriples 3 4 2) i' j' = 4) := by
  refine ⟨by decide, by decide, by decide, by decide⟩

/-- The array reached when the innermost loop for cell `(i, j)` has ended, on the dimensions
of `main` and from a zero-initialised result. -/
theorem stepsThrough_spec (A B : Mat) (text : String) {i j : Nat} (hA : A.hasShape 3 4)
    (hB : B.hasShape 4 2) (hi : i < 3) (hj : j < 2) :
    ∃ C1, runList accumulateAt (stepsThrough 3 4 2 i j) ⟨A, B, zeros 3 2, text⟩
        = some ⟨A, B, C1, text⟩ ∧ C1.hasShape 3 2 ∧
      ∀ i' j', i' < 3 → j' < 2 →
        C1.load i' j' = some (if rowMajor 2 i' j' ≤ rowMajor 2 i j
          then wrap32 (dot A B 4 i' j') else 0) := by
  obtain ⟨C1, hrun, hC1, hsum, hrange⟩ :=
    runList_accumulate_spec 3 4 2 (stepsThrough 3 4 2 i j) ⟨A, B, zeros 3 2, text⟩
      (stepsThrough_inBounds 3 4 2 i j) hA hB (zeros_hasShape 3 2)
  refine ⟨C1, hrun, hC1, ?_⟩
  intro i' j' hi' hj'
  have h0 : inRange 0 := by decide
  have h1 := hsum i' j'
  have h2 : inRange (C1.cell i' j') :=
    hrange (fun a b => by simp only [zeros_cell]; exact h0) i' j'
  rw [wrap32_of_inRange h2] at h1
  rw [Mat.load_eq_cell hC1 hi' hj', h1]
  simp only [zeros_cell, zero_add, stepsThrough_contrib A B hi hj hi' hj']
  split
  · rfl
  · exact congrArg some (wrap32_of_inRange h0)

/-- C14 (as amended): loop invariant of the multiply loop of `main`, for every 3×4 array `A`,
4×2 array `B` and zero-initialised `C`.  Cut the run where the innermost loop for cell
`(i, j)` has just ended (the last step was `(i, j, 3)`).  Then every cell at or before
`(i, j)` in row-major order holds `Σ_{k<4} A[i'][k] * B[k][j']` reduced into the 32-bit
signed range (the sum itself when it fits), no later step addresses it and it holds the same
value when the loop ends; every cell after `(i, j)` is still `0`.  The whole loop is 24
executions of the accumulation statement, 4 for each cell, and it returns. -/
theorem multiply_invariant (A B : Mat) (text : String) (i j : Nat) (hA : A.hasShape 3 4)
    (hB : B.hasShape 4 2) (hi : i < 3) (hj : j < 2) :
    ∃ C1 C2,
      runList accumulateAt (stepsThrough 3 4 2 i j) ⟨A, B, zeros 3 2, text⟩
        = some ⟨A, B, C1, text⟩ ∧
      runList accumulateAt (stepsAfter 3 4 2 i j) ⟨A, B, C1, text⟩ = some ⟨A, B, C2, text⟩ ∧
      multiply 3 4 2 ⟨A, B, zeros 3 2, text⟩ = some ⟨A, B, C2, text⟩ ∧
      (stepsThrough 3 4 2 i j).getLast? = some (i, j, 3) ∧
      (∀ i' j', i' < 3 → j' < 2 → rowMajor 2 i' j' ≤ rowMajor 2 i j →
        C1.load i' j' = some (wrap32 (dot A B 4 i' j')) ∧
        (inRange (dot A B 4 i' j') → C1.load i' j' = some (dot A B 4 i' j')) ∧
        visits (stepsAfter 3 4 2 i j) i' j' = 0 ∧
        C2.load i' j' = C1.load i' j') ∧
      (∀ i' j', i' < 3 → j' < 2 → rowMajor 2 i j < rowMajor 2 i' j' →
        C1.load i' j' = some 0) ∧
      multiply 3 4 2 ⟨A, B, zeros 3 2, text⟩
        = runList accumulateAt (ijkTriples 3 4 2) ⟨A, B, zeros 3 2, text⟩ ∧
      (ijkTriples 3 4 2).length = 24 ∧
      (∀ i' j', i' < 3 → j' < 2 → visits (ijkTriples 3 4 2) i' j' = 4) := by
  obtain ⟨C1, hrun1, hC1, hload1⟩ := stepsThrough_spec A B text hA hB hi hj
  obtain ⟨C2, hrun2, hC2, hload2⟩ := multiply_zeros_spec 3 4 2 A B text hA hB
  obtain ⟨hlast, hafter, hlen, hvisits⟩ := steps_facts
  have hrest : runList accumulateAt (stepsAfter 3 4 2 i j) ⟨A, B, C1, text⟩
      = some ⟨A, B, C2, text⟩ := by
    have h := hrun2
    rw [multiply_eq_runList, ← stepsThrough_append_stepsAfter 3 4 2 i j, runList_append,
      hrun1] at h
    exact h
  refine ⟨C1, C2, hrun1, hrest, hrun2, hlast i hi j hj, ?_, ?_,
    multiply_eq_runList 3 4 2 _, hlen, fun i' j' hi' hj' => hvisits i' hi' j' hj'⟩
  · intro i' j' hi' hj' hle
    have h1 : C1.load i' j' = some (wrap32 (dot A B 4 i' j')) := by
      rw [hload1 i' j' hi' hj', if_pos hle]
    refine ⟨h1, fun h => by rw [h1, wrap32_of_inRange h], hafter i hi j hj i' hi' j' hj' hle, ?_⟩
    rw [h1, hload2 i' j' hi' hj']
  · intro i' j' hi' hj' hlt
    rw [hload1 i' j' hi' hj', if_neg (by omega)]

/-- Witness for C14 (as amended), at the arrays of `main` and the cell `(1, 0)`. -/
theorem multiply_invariant_witness :
    init.m1.hasShape 3 4 ∧ init.m2.hasShape 4 2 ∧ 1 < 3 ∧ 0 < 2 ∧
    ∃ C1 C2,
      runList accumulateAt (stepsThrough 3 4 2 1 0) ⟨init.m1, init.m2, zeros 3 2, ""⟩
        = some ⟨init.m1, init.m2, C1, ""⟩ ∧
      runList accumulateAt (stepsAfter 3 4 2 1 0) ⟨init.m1, init.m2, C1, ""⟩
        = some ⟨init.m1, init.m2, C2, ""⟩ ∧
      multiply 3 4 2 ⟨init.m1, init.m2, zeros 3 2, ""⟩ = some ⟨init.m1, init.m2, C2, ""⟩ ∧
      (stepsThrough 3 4 2 1 0).getLast? = some (1, 0, 3) ∧
      (∀ i' j', i' < 3 → j' < 2 → rowMajor 2 i' j' ≤ rowMajor 2 1 0 →
        C1.load i' j' = some (wrap32 (dot init.m1 init.m2 4 i' j')) ∧
        (inRange (dot init.m1 init.m2 4 i' j') →
          C1.load i' j' = some (dot init.m1 init.m2 4 i' j')) ∧
        visits (stepsAfter 3 4 2 1 0) i' j' = 0 ∧
        C2.load i' j' = C1.load i' j') ∧
      (∀ i' j', i' < 3 → j' < 2 → rowMajor 2 1 0 < rowMajor 2 i' j' →
        C1.load i' j' = some 0) ∧
      multiply 3 4 2 ⟨init.m1, init.m2, zeros 3 2, ""⟩
        = runList accumulateAt (ijkTriples 3 4 2) ⟨init.m1, init.m2, zeros 3 2, ""⟩ ∧
      (ijkTriples 3 4 2).length = 24 ∧
      (∀ i' j', i' < 3 → j' < 2 → visits (ijkTriples 3 4 2) i' j' = 4) :=
  ⟨by decide, by decide, by decide, by decide,
    multiply_invariant init.m1 init.m2 "" 1 0 (by decide) (by decide) (by decide) (by decide)⟩

/-- C14 fails as stated: with every entry of `A` (3×4) and `B` (4×2) equal to `46341`, all
of them 32-bit `int` values, when the innermost loop has ended for cell `(0, 0)` the cell
holds `18532`, and it still does when the whole loop has ended, while the sum over `k` of
`A[0][k] * B[k][0]` is `8589953124`. -/
theorem multiply_invariant_counterexample :
    rootA.hasShape 3 4 ∧ rootB.hasShape 4 2 ∧ rootA.inInt32 ∧ rootB.inInt32 ∧
    (runList accumulateAt (stepsThrough 3 4 2 0 0) ⟨rootA, rootB, zeros 3 2, ""⟩).map
        (fun s => s.m3.load 0 0) = some (some 18532) ∧
    (multiply 3 4 2 ⟨rootA, rootB, zeros 3 2, ""⟩).map (fun s => s.m3.load 0 0)
      = some (some 18532) ∧
    dot rootA rootB 4 0 0 = 8589953124 ∧
    (runList accumulateAt (stepsThrough 3 4 2 0 0) ⟨rootA, rootB, zeros 3 2, ""⟩).map
        (fun s => s.m3.load 0 0) ≠ some (some (dot rootA rootB 4 0 0)) := by
  decide

/-! ## Overflow bound -/

theorem Mat.cell_natAbs_le {M : Mat} {b : Nat} (h : M.boundedBy b) (i j : Nat) :
    (M.cell i j).natAbs ≤ b := by
  unfold Mat.cell Mat.load
  cases hr : M[i]? with
  | none => simp
  | some r =>
    cases hx : r[j]? with
    | none => simp [hx]
    | some x =>
      simp only [hx, Option.getD_some]
      exact h r (List.getElem?_mem hr) x (List.getElem?_mem hx)

theorem cell_mul_natAbs_le {A B : Mat} {b : Nat} (hA : A.boundedBy b) (hB : B.boundedBy b)
    (i j k : Nat) : (A.cell i k * B.cell k j).natAbs ≤ b * b := by
  rw [Int.natAbs_mul]
  exact Nat.mul_le_mul (Mat.cell_natAbs_le hA i k) (Mat.cell_natAbs_le hB k j)

theorem visits_cons (t : Nat × Nat × Nat) (l : List (Nat × Nat × Nat)) (i j : Nat) :
    visits (t :: l) i j = visits l i j + if t.1 = i ∧ t.2.1 = j then 1 else 0 := by
  unfold visits
  rw [List.countP_cons]
  by_cases h : t.1 = i ∧ t.2.1 = j
  · simp [h]
  · simp [h]

/-- Potential argument: if every product is at most `q` in absolute value and every cell
has room for `q` times the number of steps still addressed to it, no step overflows. -/
theorem noOverflow_of_room (m n p q : Nat) (l : List (Nat × Nat × Nat)) (s : State)
    (hl : inBounds m n p l) (h1 : s.m1.hasShape m n) (h2 : s.m2.hasShape n p)
    (h3 : s.m3.hasShape m p)
    (hq : ∀ i j k, (s.m1.cell i k * s.m2.cell k j).natAbs ≤ q)
    (hroom : ∀ i j, i < m → j < p →
      (s.m3.cell i j).natAbs + visits l i j * q ≤ 2147483647) :
    noOverflow l s = true := by
  induction l generalizing s with
  | nil => rfl
  | cons t l ih =>
    obtain ⟨hi, hj, hk⟩ := hl t (List.mem_cons_self _ _)
    obtain ⟨M1, hacc, hM1, hcell⟩ := accumulate_spec h1 h2 h3 hi hj hk
    have hprod := hq t.1 t.2.1 t.2.2
    have hr := hroom t.1 t.2.1 hi hj
    rw [visits_cons, if_pos ⟨rfl, rfl⟩, Nat.add_mul, Nat.one_mul] at hr
    have hno : noOverflowAt t.1 t.2.1 t.2.2 s := by
      unfold noOverflowAt inRange INT_MIN INT_MAX
      omega
    have hw1 : wrap32 (s.m1.cell t.1 t.2.2 * s.m2.cell t.2.2 t.2.1)
        = s.m1.cell t.1 t.2.2 * s.m2.cell t.2.2 t.2.1 :=
      wrap32_of_inRange hno.1
    simp only [noOverflow, accumulateAt, hacc, hno, decide_True, Bool.true_and]
    refine ih ⟨s.m1, s.m2, M1, s.out⟩ (fun u hu => hl u (List.mem_cons_of_mem _ hu))
      h1 h2 hM1 hq ?_
    intro i j hi' hj'
    have hr' := hroom i j hi' hj'
    rw [visits_cons, Nat.add_mul] at hr'
    simp only [hcell i j]
    by_cases hij : i = t.1 ∧ j = t.2.1
    · obtain ⟨rfl, rfl⟩ := hij
      rw [if_pos ⟨rfl, rfl⟩, hw1, wrap32_of_inRange hno.2]
      omega
    · have hij' : ¬ (t.1 = i ∧ t.2.1 = j) := fun h => hij ⟨h.1.symm, h.2.symm⟩
      rw [if_neg hij]
      rw [if_neg hij'] at hr'
      omega

theorem dot_four (A B : Mat) (i j : Nat) :
    dot A B 4 i j = A.cell i 0 * B.cell 0 j + (A.cell i 1 * B.cell 1 j
      + (A.cell i 2 * B.cell 2 j + (A.cell i 3 * B.cell 3 j + 0))) := rfl

theorem dot_partial_inRange {A B : Mat} (hA : A.boundedBy 23170) (hB : B.boundedBy 23170)
    (i j k : Nat) (hk : k < 4) : inRange (dot A B (k + 1) i j) := by
  have p0 := cell_mul_natAbs_le hA hB i j 0
  have p1 := cell_mul_natAbs_le hA hB i j 1
  have p2 := cell_mul_natAbs_le hA hB i j 2
  have p3 := cell_mul_natAbs_le hA hB i j 3
  have e1 : dot A B 1 i j = A.cell i 0 * B.cell 0 j + 0 := rfl
  have e2 : dot A B 2 i j = A.cell i 0 * B.cell 0 j + (A.cell i 1 * B.cell 1 j + 0) := rfl
  have e3 : dot A B 3 i j = A.cell i 0 * B.cell 0 j + (A.cell i 1 * B.cell 1 j
      + (A.cell i 2 * B.cell 2 j + 0)) := rfl
  have e4 := dot_four A B i j
  unfold inRange INT_MIN INT_MAX
  interval_cases k
  · rw [e1]; omega
  · rw [e2]; omega
  · rw [e3]; omega
  · rw [e4]; omega

/-- With every entry `23171` the fourth partial sum of cell `(0, 0)` is `2147580964`, one
step overflows and the wrapped result is not the matrix product. -/
theorem tight_facts :
    tightA.hasShape 3 4 ∧ tightB.hasShape 4 2 ∧
    tightA.boundedBy 23171 ∧ tightB.boundedBy 23171 ∧
    noOverflow (ijkTriples 3 4 2) ⟨tightA, tightB, zeros 3 2, ""⟩ = false ∧
    inRange (dot tightA tightB 3 0 0) ∧ INT_MAX < dot tightA tightB 4 0 0 ∧
    (multiply 3 4 2 ⟨tightA, tightB, zeros 3 2, ""⟩).map (fun s => s.m3)
      ≠ some (matProduct tightA tightB 3 4 2) := by
  refine ⟨by decide, by decide, by decide, by decide, by decide, by decide, by decide,
    by decide⟩

/-- C15: overflow bound for general inputs.  For every 3×4 array `A` and 4×2 array `B`
whose entries all have absolute value at most `23170`, no step of the multiply loop of
`main` overflows: every product and every partial sum stays in `[-2^31, 2^31 - 1]`, and the
array computed with 32-bit wraparound is the matrix product over the integers.  The bound
is tight: there are `A` and `B` with all entries of absolute value at most `23171` for which
a step overflows, the partial sum `4 * 23171^2 = 2147580964` exceeding `2^31 - 1`. -/
theorem overflow_bound (A B : Mat) (text : String) (hA : A.hasShape 3 4) (hB : B.hasShape 4 2)
    (bA : A.boundedBy 23170) (bB : B.boundedBy 23170) :
    noOverflow (ijkTriples 3 4 2) ⟨A, B, zeros 3 2, text⟩ = true ∧
    (∀ i j k, i < 3 → j < 2 → k < 4 →
      inRange (A.cell i k * B.cell k j) ∧ inRange (dot A B (k + 1) i j)) ∧
    multiply 3 4 2 ⟨A, B, zeros 3 2, text⟩ = some ⟨A, B, matProduct A B 3 4 2, text⟩ ∧
    (∃ A' B' : Mat, A'.hasShape 3 4 ∧ B'.hasShape 4 2 ∧
      A'.boundedBy 23171 ∧ B'.boundedBy 23171 ∧
      noOverflow (ijkTriples 3 4 2) ⟨A', B', zeros 3 2, ""⟩ = false ∧
      inRange (dot A' B' 3 0 0) ∧ INT_MAX < dot A' B' 4 0 0 ∧
      (multiply 3 4 2 ⟨A', B', zeros 3 2, ""⟩).map (fun s => s.m3)
        ≠ some (matProduct A' B' 3 4 2)) := by
  have hvis := steps_facts.2.2.2
  refine ⟨?_, ?_, ?_, ⟨tightA, tightB, tight_facts⟩⟩
  · apply noOverflow_of_room 3 4 2 (23170 * 23170) _ _ (ijkTriples_inBounds 3 4 2) hA hB
      (zeros_hasShape 3 2) (fun i j k => cell_mul_natAbs_le bA bB i j k)
    intro i j hi hj
    rw [hvis i hi j hj]
    simp only [zeros_cell]
    decide
  · intro i j k _ _ hk
    refine ⟨?_, dot_partial_inRange bA bB i j k hk⟩
    have := cell_mul_natAbs_le bA bB i j k
    unfold inRange INT_MIN INT_MAX
    omega
  · obtain ⟨C, hrun, hC, hload⟩ := multiply_zeros_spec 3 4 2 A B text hA hB
    have : C = matProduct A B 3 4 2 := by
      apply Mat.ext_of_load hC (matProduct_hasShape A B 3 4 2)
      intro i j hi hj
      rw [hload i j hi hj, matProduct_load A B hi hj,
        wrap32_of_inRange (dot_partial_inRange bA bB i j 3 (by decide))]
    rw [hrun, this]

/-- Witness for C15, at the arrays with every entry equal to the bound `23170`. -/
theorem overflow_bound_witness :
    edgeA.hasShape 3 4 ∧ edgeB.hasShape 4 2 ∧ edgeA.boundedBy 23170 ∧ edgeB.boundedBy 23170 ∧
    noOverflow (ijkTriples 3 4 2) ⟨edgeA, edgeB, zeros 3 2, ""⟩ = true ∧
    multiply 3 4 2 ⟨edgeA, edgeB, zeros 3 2, ""⟩
      = some ⟨edgeA, edgeB, matProduct edgeA edgeB 3 4 2, ""⟩ :=
  ⟨by decide, by decide, by decide, by decide,
    (overflow_bound edgeA edgeB "" (by decide) (by decide) (by decide) (by decide)).1,
    (overflow_bound edgeA edgeB "" (by decide) (by decide) (by decide) (by decide)).2.2.1⟩

end MatrixMul
